import Mathlib

/-!
Verification of the CppLog asynchronous logger (`src/logger.hpp`).

The development shallowly embeds the data model and the operations of the
logger: the severity enumeration, the bounded drop-oldest queue
(`Logger::log_entry`), the message formatter (`Logger::format_recursive`
with `Logger::safe_append`), the emit path (`Logger::log`), the worker
dispatch loop (`Logger::worker_loop`), and the two sinks (`ConsoleSink`,
`FileSink` with size-triggered rotation).  Machine integers are modelled
as `Nat` (no arithmetic here ever overflows in the source's regimes),
C++ exceptions as `Except`/`Option`, and the file system touched by
rotation as an association list from file names to contents.
-/

namespace CppLog

/-- `enum class LogLevel` of `logger.hpp`. -/
inductive LogLevel where
  | DEBUG
  | INFO
  | WARN
  | ERROR
  | FATAL
deriving DecidableEq, Repr

/-- The underlying integer value of each enumerator (`DEBUG = 0` … `FATAL = 4`). -/
def LogLevel.toNat : LogLevel → Nat
  | .DEBUG => 0
  | .INFO  => 1
  | .WARN  => 2
  | .ERROR => 3
  | .FATAL => 4

/-- The `<` comparison on `LogLevel` used by `Logger::log` (comparison of the
underlying enum values). -/
def levelLt (a b : LogLevel) : Bool :=
  decide (a.toNat < b.toNat)

/-- `level_to_string` of `logger.hpp` (note the padding blanks after
`INFO` and `WARN`). -/
def level_to_string : LogLevel → String
  | .DEBUG => "DEBUG"
  | .INFO  => "INFO "
  | .WARN  => "WARN "
  | .ERROR => "ERROR"
  | .FATAL => "FATAL"

/-- `struct LogEntry` of `logger.hpp`.  The wall-clock timestamp and the
thread id are opaque to the logic verified here; both are modelled as `Nat`. -/
structure LogEntry where
  timestamp : Nat
  level : LogLevel
  thread_id : Nat
  message : String
deriving DecidableEq, Repr

/-- A concrete sample entry, used for concrete instantiations. -/
def sampleEntry (n : Nat) : LogEntry :=
  { timestamp := n, level := .INFO, thread_id := 0, message := toString n }

/-- `Logger::log_entry` of `logger.hpp`: push one entry into the bounded
queue.  The queue is the list of entries, front first.  If
`log_queue_.size() >= max_queue_size_` the oldest entry is popped first;
`std::queue::pop` on an empty queue is undefined behaviour, modelled as
`none`. -/
def log_entry (max_queue_size : Nat) (q : List LogEntry) (e : LogEntry) :
    Option (List LogEntry) :=
  if max_queue_size ≤ q.length then
    match q with
    | [] => none
    | _ :: rest => some (rest ++ [e])
  else
    some (q ++ [e])

/-- A sequence of `log_entry` pushes with no draining in between. -/
def pushAll (max_queue_size : Nat) (q : List LogEntry) (es : List LogEntry) :
    Option (List LogEntry) :=
  es.foldlM (fun acc e => log_entry max_queue_size acc e) q

/-- The last `n` elements of a list. -/
def lastN (n : Nat) (l : List LogEntry) : List LogEntry :=
  l.drop (l.length - n)

theorem lastN_of_length_le (n : Nat) (l : List LogEntry) (h : l.length ≤ n) :
    lastN n l = l := by
  simp [lastN, Nat.sub_eq_zero_of_le h]

theorem lastN_cons (n : Nat) (x : LogEntry) (l : List LogEntry)
    (h : n ≤ l.length) : lastN n (x :: l) = lastN n l := by
  unfold lastN
  have : (x :: l).length - n = (l.length - n) + 1 := by
    simp only [List.length_cons]
    omega
  rw [this]
  rfl

theorem pushAll_eq_lastN (M : Nat) (hM : 1 ≤ M) :
    ∀ (es q : List LogEntry), q.length ≤ M →
      pushAll M q es = some (lastN M (q ++ es)) := by
  intro es
  induction es with
  | nil =>
      intro q hq
      simp [pushAll, lastN_of_length_le M q hq]
  | cons e es ih =>
      intro q hq
      have hstep : pushAll M q (e :: es)
          = (log_entry M q e).bind (fun q' => pushAll M q' es) := by
        rcases h : log_entry M q e with _ | q' <;>
          simp [pushAll, List.foldlM, h]
      rcases Nat.lt_or_ge q.length M with hlt | hge
      · have hle : ¬ M ≤ q.length := Nat.not_le.mpr hlt
        have hlog : log_entry M q e = some (q ++ [e]) := by
          simp [log_entry, hle]
        rw [hstep, hlog]
        have hlen : (q ++ [e]).length ≤ M := by
          simp only [List.length_append, List.length_cons, List.length_nil]
          omega
        show pushAll M (q ++ [e]) es = some (lastN M (q ++ e :: es))
        rw [ih (q ++ [e]) hlen, List.append_assoc, List.singleton_append]
      · have heq : q.length = M := Nat.le_antisymm hq hge
        rcases q with _ | ⟨h0, t⟩
        · exfalso
          simp only [List.length_nil] at heq
          omega
        · have heq' : t.length + 1 = M := by simpa using heq
          have hlog : log_entry M (h0 :: t) e = some (t ++ [e]) := by
            unfold log_entry
            rw [if_pos heq.ge]
          rw [hstep, hlog]
          show pushAll M (t ++ [e]) es = some (lastN M ((h0 :: t) ++ e :: es))
          have hlen : (t ++ [e]).length ≤ M := by
            simp only [List.length_append, List.length_cons, List.length_nil]
            omega
          rw [ih (t ++ [e]) hlen]
          have hcast : (h0 :: t) ++ (e :: es) = h0 :: (t ++ e :: es) := rfl
          rw [hcast, lastN_cons M h0 (t ++ e :: es)
            (by simp only [List.length_append, List.length_cons]; omega),
            List.append_assoc, List.singleton_append]

/-- C1: with a fixed maximum queue size `M ≥ 1` and no draining, after
pushing more than `M` records the queue retains exactly the `M` most
recently pushed records, in push order. -/
theorem queue_drop_oldest (M : Nat) (es : List LogEntry)
    (hM : 1 ≤ M) (hlen : M < es.length) :
    pushAll M [] es = some (es.drop (es.length - M)) ∧
    (es.drop (es.length - M)).length = M := by
  constructor
  · have := pushAll_eq_lastN M hM es [] (by simp)
    simpa [lastN] using this
  · simp only [List.length_drop]
    omega

/-- Witness for C1: capacity 3, five pushes, the queue holds exactly the
last three records in push order. -/
theorem queue_drop_oldest_witness :
    pushAll 3 []
        [sampleEntry 0, sampleEntry 1, sampleEntry 2, sampleEntry 3, sampleEntry 4]
      = some [sampleEntry 2, sampleEntry 3, sampleEntry 4] := by
  have h := queue_drop_oldest 3
    [sampleEntry 0, sampleEntry 1, sampleEntry 2, sampleEntry 3, sampleEntry 4]
    (by decide) (by decide)
  exact h.1.trans (by decide)

/-- C9: with maximum queue size at least 1, the eviction branch of
`log_entry` only ever pops a non-empty queue, so the push is well
defined; with maximum queue size 0 the eviction branch pops the empty
queue (undefined behaviour, modelled as `none`). -/
theorem eviction_pop_safe :
    (∀ (M : Nat) (q : List LogEntry) (e : LogEntry), 1 ≤ M →
        (log_entry M q e).isSome = true) ∧
    log_entry 0 [] (sampleEntry 0) = none := by
  constructor
  · intro M q e hM
    unfold log_entry
    split
    · rename_i hcond
      rcases q with _ | ⟨h0, t⟩
      · exfalso
        simp only [List.length_nil, Nat.le_zero] at hcond
        omega
      · simp
    · simp
  · rfl

/-- Witness for C9 at a concrete input. -/
theorem eviction_pop_safe_witness :
    (log_entry 1 [sampleEntry 0] (sampleEntry 1)).isSome = true :=
  eviction_pop_safe.1 1 [sampleEntry 0] (sampleEntry 1) (by decide)

/-- C10: each `log_entry` leaves the queue no larger than the maximum of
its previous size and the configured bound; starting empty with bound
`M ≥ 1` the size never exceeds `M`; and when the bound has been lowered
below the current size, a push evicts exactly one record and leaves the
size unchanged instead of shrinking it. -/
theorem queue_size_bound :
    (∀ (M : Nat) (q : List LogEntry) (e : LogEntry) (q' : List LogEntry),
        log_entry M q e = some q' → q'.length ≤ max q.length M) ∧
    (∀ (M : Nat) (es : List LogEntry) (q' : List LogEntry), 1 ≤ M →
        pushAll M [] es = some q' → q'.length ≤ M) ∧
    (∀ (M : Nat) (q : List LogEntry) (e : LogEntry), M < q.length →
        ∃ q', log_entry M q e = some q' ∧ q'.length = q.length) := by
  refine ⟨?_, ?_, ?_⟩
  · intro M q e q' h
    unfold log_entry at h
    rcases Nat.lt_or_ge q.length M with hlt | hge
    · rw [if_neg (Nat.not_le.mpr hlt)] at h
      have : q' = q ++ [e] := by
        exact (Option.some_injective _ h).symm
      subst this
      simp only [List.length_append, List.length_cons, List.length_nil]
      omega
    · rw [if_pos hge] at h
      rcases q with _ | ⟨h0, t⟩
      · exact absurd h (by simp)
      · have : q' = t ++ [e] := (Option.some_injective _ h).symm
        subst this
        simp only [List.length_append, List.length_cons, List.length_nil]
        omega
  · intro M es q' hM h
    rw [pushAll_eq_lastN M hM es [] (by simp)] at h
    have : q' = lastN M ([] ++ es) := (Option.some_injective _ h).symm
    subst this
    simp only [lastN, List.nil_append, List.length_drop]
    omega
  · intro M q e hlt
    have hge : M ≤ q.length := Nat.le_of_lt hlt
    rcases q with _ | ⟨h0, t⟩
    · exfalso
      simp only [List.length_nil] at hlt
      omega
    · refine ⟨t ++ [e], ?_, ?_⟩
      · unfold log_entry
        rw [if_pos hge]
      · simp only [List.length_append, List.length_cons, List.length_nil]

/-- Witness for C10 at a concrete input: bound lowered to 1 with two
records queued, a push keeps the size at 2. -/
theorem queue_size_bound_witness :
    ∃ q', log_entry 1 [sampleEntry 0, sampleEntry 1] (sampleEntry 2) = some q'
      ∧ q'.length = 2 :=
  queue_size_bound.2.2 1 [sampleEntry 0, sampleEntry 1] (sampleEntry 2) (by decide)

/-! ## Message formatting (`Logger::safe_append`, `Logger::format_recursive`) -/

/-- The outcome of streaming one argument into the `ostringstream`
(`oss << value`): either the rendered text, or a thrown C++ exception. -/
inductive RenderOutcome where
  | ok (s : String)
  | throws
deriving DecidableEq, Repr

/-- `Logger::safe_append`: stream one value, turning any thrown exception
into the literal `[FORMAT_ERROR]`. -/
def safe_append (v : RenderOutcome) : String :=
  match v with
  | .ok s => s
  | .throws => "[FORMAT_ERROR]"

/-- `format.find("{}")` followed by the two `substr` calls of
`Logger::format_recursive`: the text before the first `{}` and the text
after it, or `none` when no `{}` occurs. -/
def splitAtPlaceholder : List Char → Option (List Char × List Char)
  | [] => none
  | [_] => none
  | c :: d :: rest =>
    if c = '{' ∧ d = '}' then some ([], rest)
    else
      match splitAtPlaceholder (d :: rest) with
      | some (p, s) => some (c :: p, s)
      | none => none

/-- `Logger::format_recursive` (both overloads): with no arguments left the
remaining format text is streamed verbatim; otherwise the text before the
first `{}` is streamed, the first argument is streamed through
`safe_append`, and the recursion continues after the `{}`; if no `{}`
remains, the format text is streamed and the surplus arguments dropped. -/
def format_recursive : List Char → List RenderOutcome → List Char
  | fmt, [] => fmt
  | fmt, v :: rest =>
    match splitAtPlaceholder fmt with
    | some (p, s) => p ++ (safe_append v).toList ++ format_recursive s rest
    | none => fmt

theorem splitAtPlaceholder_append (pre post : List Char)
    (h : splitAtPlaceholder pre = none) :
    splitAtPlaceholder (pre ++ '{' :: '}' :: post) = some (pre, post) := by
  induction pre with
  | nil =>
      simp [splitAtPlaceholder]
  | cons c pre ih =>
      rcases pre with _ | ⟨d, rest⟩
      · show splitAtPlaceholder (c :: '{' :: '}' :: post) = some ([c], post)
        unfold splitAtPlaceholder
        have hc : ¬ (c = '{' ∧ '{' = '}') := by
          rintro ⟨-, hcd⟩
          exact absurd hcd (by decide)
        rw [if_neg hc]
        have : splitAtPlaceholder ('{' :: '}' :: post) = some ([], post) := by
          simp [splitAtPlaceholder]
        rw [this]
      · have hcd : ¬ (c = '{' ∧ d = '}') := by
          intro hand
          unfold splitAtPlaceholder at h
          rw [if_pos hand] at h
          exact Option.noConfusion h
        have htail : splitAtPlaceholder (d :: rest) = none := by
          unfold splitAtPlaceholder at h
          rw [if_neg hcd] at h
          rcases hsplit : splitAtPlaceholder (d :: rest) with _ | p
          · rfl
          · rw [hsplit] at h
            exact Option.noConfusion h
        have ih' := ih htail
        rw [show (d :: rest) ++ '{' :: '}' :: post
              = d :: (rest ++ '{' :: '}' :: post) from rfl] at ih'
        show splitAtPlaceholder (c :: d :: (rest ++ '{' :: '}' :: post))
          = some (c :: d :: rest, post)
        unfold splitAtPlaceholder
        rw [if_neg hcd, ih']

/-- C5: the substitution contract of the formatter — each `{}` is replaced
left-to-right by the corresponding argument; surplus arguments are
ignored when no `{}` remains; and when the arguments run out the
remaining format text (any trailing `{}` included) is kept verbatim. -/
theorem format_substitution_contract :
    (∀ (pre post : List Char) (a : RenderOutcome) (args : List RenderOutcome),
        splitAtPlaceholder pre = none →
        format_recursive (pre ++ '{' :: '}' :: post) (a :: args)
          = pre ++ (safe_append a).toList ++ format_recursive post args) ∧
    (∀ (fmt : List Char) (args : List RenderOutcome),
        splitAtPlaceholder fmt = none → format_recursive fmt args = fmt) ∧
    (∀ fmt : List Char, format_recursive fmt [] = fmt) := by
  refine ⟨?_, ?_, ?_⟩
  · intro pre post a args h
    show (match splitAtPlaceholder (pre ++ '{' :: '}' :: post) with
          | some (p, s) => p ++ (safe_append a).toList ++ format_recursive s args
          | none => pre ++ '{' :: '}' :: post)
        = pre ++ (safe_append a).toList ++ format_recursive post args
    rw [splitAtPlaceholder_append pre post h]
  · intro fmt args h
    rcases args with _ | ⟨a, rest⟩
    · rfl
    · unfold format_recursive
      rw [h]
  · intro fmt
    rfl

/-- Witness for C5 at a concrete input. -/
theorem format_substitution_contract_witness :
    format_recursive ("id=".toList ++ '{' :: '}' :: "!".toList)
        [RenderOutcome.ok "42"]
      = "id=".toList ++ (safe_append (RenderOutcome.ok "42")).toList
          ++ format_recursive "!".toList [] :=
  format_substitution_contract.1 "id=".toList "!".toList
    (RenderOutcome.ok "42") [] (by decide)

/-! ## The emit path (`Logger::log`) -/

/-- The message produced inside the `try`/`catch` of `Logger::log`: when
the `try` block throws (`formatThrows`), the stream is reset and the raw
format string is kept behind the `[LOG_ERROR] ` marker; otherwise the
format string is rendered (verbatim when the argument pack is empty, via
`format_recursive` otherwise). -/
def msgOf (format : String) (args : List RenderOutcome) (formatThrows : Bool) :
    String :=
  if formatThrows then "[LOG_ERROR] " ++ format
  else if args.isEmpty then format
  else String.mk (format_recursive format.toList args)

/-- `Logger::log`: the severity filter, the guarded formatting step, the
construction of the `LogEntry` and the push through `log_entry`.  The
boolean `formatThrows` says whether the `try` block of the formatting
step threw (the `catch (...)` handler accepts any thrown object, e.g. an
allocation failure, which the embedding cannot predict).  Below the
minimum severity the function returns before any formatting work. -/
def Logger.log (min_level : LogLevel) (max_queue_size : Nat)
    (q : List LogEntry) (ts tid : Nat) (level : LogLevel) (format : String)
    (args : List RenderOutcome) (formatThrows : Bool) :
    Option (List LogEntry) :=
  if levelLt level min_level then some q
  else
    log_entry max_queue_size q
      { timestamp := ts, level := level, thread_id := tid,
        message := msgOf format args formatThrows }

theorem log_entry_getLast (M : Nat) (q : List LogEntry) (e : LogEntry)
    (hM : 1 ≤ M) :
    ∃ q', log_entry M q e = some q' ∧ q'.getLast? = some e := by
  unfold log_entry
  split
  · rename_i hcond
    rcases q with _ | ⟨h0, t⟩
    · exfalso
      simp only [List.length_nil, Nat.le_zero] at hcond
      omega
    · exact ⟨t ++ [e], rfl, List.getLast?_concat t⟩
  · exact ⟨q ++ [e], rfl, List.getLast?_concat q⟩

/-- C4: an emit call strictly below the configured minimum severity
returns with the queue unchanged — no record is inserted, and the result
does not depend on the format string or the arguments (no formatting
work), so no sink can ever be invoked for the call; a call at or above
the minimum severity pushes a record carrying the rendered message. -/
theorem level_filter_short_circuit :
    (∀ (minL : LogLevel) (maxQ : Nat) (q : List LogEntry) (ts tid : Nat)
        (level : LogLevel) (fmt : String) (args : List RenderOutcome)
        (th : Bool), levelLt level minL = true →
        Logger.log minL maxQ q ts tid level fmt args th = some q) ∧
    (∀ (minL : LogLevel) (maxQ : Nat) (q : List LogEntry) (ts tid : Nat)
        (level : LogLevel) (fmt : String) (args : List RenderOutcome)
        (th : Bool), levelLt level minL = false → 1 ≤ maxQ →
        ∃ q', Logger.log minL maxQ q ts tid level fmt args th = some q' ∧
          q'.getLast? = some { timestamp := ts, level := level,
                               thread_id := tid,
                               message := msgOf fmt args th }) := by
  constructor
  · intro minL maxQ q ts tid level fmt args th h
    unfold Logger.log
    rw [if_pos h]
  · intro minL maxQ q ts tid level fmt args th h hQ
    unfold Logger.log
    rw [if_neg (by rw [h]; exact Bool.false_ne_true)]
    exact log_entry_getLast maxQ q _ hQ

/-- Witness for C4: minimum severity `WARN`, one `DEBUG` and one `ERROR`
emit — the `DEBUG` call leaves the queue untouched and the `ERROR` call
enqueues its record. -/
theorem level_filter_short_circuit_witness :
    Logger.log .WARN 10 [] 0 0 .DEBUG "dbg {}" [RenderOutcome.ok "x"] false
      = some [] ∧
    ∃ q', Logger.log .WARN 10 [] 0 0 .ERROR "err {}" [RenderOutcome.ok "x"] false
        = some q' ∧
      q'.getLast? = some { timestamp := 0, level := .ERROR, thread_id := 0,
                           message := msgOf "err {}" [RenderOutcome.ok "x"] false } :=
  ⟨level_filter_short_circuit.1 .WARN 10 [] 0 0 .DEBUG "dbg {}"
      [RenderOutcome.ok "x"] false (by decide),
   level_filter_short_circuit.2 .WARN 10 [] 0 0 .ERROR "err {}"
      [RenderOutcome.ok "x"] false (by decide) (by decide)⟩

/-- C6: when the formatting step throws, the emit call (at or above the
minimum severity, with a usable queue bound) still returns normally and
still enqueues a record, whose message is the raw format string behind
the fixed `[LOG_ERROR] ` marker. -/
theorem format_failure_fallback :
    ∀ (minL : LogLevel) (maxQ : Nat) (q : List LogEntry) (ts tid : Nat)
      (level : LogLevel) (fmt : String) (args : List RenderOutcome),
      levelLt level minL = false → 1 ≤ maxQ →
      ∃ q', Logger.log minL maxQ q ts tid level fmt args true = some q' ∧
        q'.getLast? = some { timestamp := ts, level := level, thread_id := tid,
                             message := "[LOG_ERROR] " ++ fmt } := by
  intro minL maxQ q ts tid level fmt args h hQ
  unfold Logger.log
  rw [if_neg (by rw [h]; exact Bool.false_ne_true)]
  have : msgOf fmt args true = "[LOG_ERROR] " ++ fmt := rfl
  rw [this]
  exact log_entry_getLast maxQ q _ hQ

/-- Witness for C6 at a concrete input. -/
theorem format_failure_fallback_witness :
    ∃ q', Logger.log .DEBUG 5 [] 0 0 .ERROR "x = {}" [RenderOutcome.ok "1"] true
        = some q' ∧
      q'.getLast? = some { timestamp := 0, level := .ERROR, thread_id := 0,
                           message := "[LOG_ERROR] " ++ "x = {}" } :=
  format_failure_fallback .DEBUG 5 [] 0 0 .ERROR "x = {}"
    [RenderOutcome.ok "1"] (by decide) (by decide)

/-! ## Sink output lines (`ConsoleSink::write`, `FileSink::write`) -/

/-- The ANSI colour code chosen by `ConsoleSink::get_color_code`. -/
def get_color_code : LogLevel → String
  | .DEBUG => "\x1b[36m"
  | .INFO  => "\x1b[32m"
  | .WARN  => "\x1b[33m"
  | .ERROR => "\x1b[31m"
  | .FATAL => "\x1b[35m"

/-- `ConsoleSink::get_reset_code`. -/
def get_reset_code : String := "\x1b[0m"

/-- The line printed by `ConsoleSink::write`, built exactly in the order of
its `<<` chain; `std::endl` contributes the final newline.  The timestamp
string and the printed thread id are taken as inputs (they come from the
clock and the OS). -/
def consoleLine (use_colors : Bool) (ts : String) (level : LogLevel)
    (tid : String) (msg : String) : String :=
  (if use_colors then get_color_code level else "")
    ++ "[" ++ ts ++ "] "
    ++ level_to_string level ++ " "
    ++ "[" ++ tid ++ "] "
    ++ msg
    ++ (if use_colors then get_reset_code else "")
    ++ "\n"

/-- The `log_line` appended by `FileSink::write`, built exactly as in the
source: timestamp, then the level *wrapped in brackets*, then the hash of
the thread id, then the message and a newline. -/
def fileLine (ts : String) (level : LogLevel) (tidHash : String)
    (msg : String) : String :=
  "[" ++ ts ++ "] "
    ++ "[" ++ level_to_string level ++ "] "
    ++ "[" ++ tidHash ++ "] "
    ++ msg ++ "\n"

/-- C7 counterexample: at one concrete record the two sinks do not emit
the same line shape even after substituting the hash for the thread id —
the file sink additionally wraps the severity in brackets. -/
theorem sink_line_shape_counterexample :
    consoleLine false "2024-01-01 00:00:00.000" .INFO "42" "hello"
      ≠ fileLine "2024-01-01 00:00:00.000" .INFO "42" "hello" := by
  decide

/-- C7 (amended): both sinks emit exactly one newline-terminated line per
record; the console sink (colours off) emits
`[timestamp] LEVEL [thread-id] message`, while the file sink emits
`[timestamp] [LEVEL] [thread-hash] message`, i.e. it differs from the
console shape both by substituting the thread-identity hash and by
bracketing the severity. -/
theorem sink_line_shapes :
    ∀ (ts : String) (level : LogLevel) (tid : String) (msg : String),
      consoleLine false ts level tid msg
        = "[" ++ ts ++ "] " ++ level_to_string level ++ " [" ++ tid ++ "] "
            ++ msg ++ "\n" ∧
      fileLine ts level tid msg
        = "[" ++ ts ++ "] [" ++ level_to_string level ++ "] [" ++ tid ++ "] "
            ++ msg ++ "\n" := by
  intro ts level tid msg
  constructor
  · simp [consoleLine, String.append_assoc]
  · simp [fileLine, String.append_assoc]

/-! ## Flush (`ConsoleSink::flush`, `FileSink::flush`) -/

/-- A buffered output stream (`std::cout`, `std::ofstream`): the bytes
still buffered in the stream and the bytes already delivered to the
destination. -/
structure OutStream where
  buffered : String
  flushed : String
deriving DecidableEq, Repr

/-- Flushing a stream forces the buffered bytes to the destination. -/
def OutStream.flushNow (s : OutStream) : OutStream :=
  { buffered := "", flushed := s.flushed ++ s.buffered }

/-- `ConsoleSink::flush`: `std::cout.flush()`. -/
def ConsoleSink.flush (s : OutStream) : OutStream :=
  s.flushNow

/-- `FileSink::flush`: flush the file stream when it is open, otherwise do
nothing. -/
def FileSink.flush (is_open : Bool) (s : OutStream) : OutStream :=
  if is_open then s.flushNow else s

/-- C8: for both sinks and in every stream state, flushing twice in a row
is the same as flushing once — the second flush delivers no further
output (and, both flushes being total functions, raises no error). -/
theorem flush_idempotent :
    (∀ s : OutStream, ConsoleSink.flush (ConsoleSink.flush s)
        = ConsoleSink.flush s) ∧
    (∀ (b : Bool) (s : OutStream), FileSink.flush b (FileSink.flush b s)
        = FileSink.flush b s) := by
  constructor
  · intro s
    simp [ConsoleSink.flush, OutStream.flushNow]
  · intro b s
    cases b <;> simp [FileSink.flush, OutStream.flushNow]

/-! ## Worker-loop dispatch (`Logger::worker_loop`, lines 302–322) -/

/-- The outcome of one call into a sink (`write` or `flush`): normal
return, a thrown object derived from `std::exception` (carrying its
`what()` text), or a thrown object of any other type. -/
inductive SinkOutcome where
  | ok
  | throwStd (msg : String)
  | throwOther
deriving DecidableEq, Repr

/-- A registered sink, abstracted by the outcome of each virtual call the
worker loop can make on it. -/
structure SinkModel where
  write : LogEntry → SinkOutcome
  flush : SinkOutcome

/-- The inner loop of the batch dispatch for a single record: each sink's
`write` is called in registration order inside
`try { … } catch (const std::exception& e) { std::cerr << … }`.  The
result carries the `std::cerr` diagnostic lines and the sinks whose
`write` was actually called; a thrown object that is not a
`std::exception` is not caught and propagates (`Except.error`),
terminating the worker thread. -/
def writeEntryToSinks : List SinkModel → LogEntry →
    Except Unit (List String × List SinkModel)
  | [], _ => .ok ([], [])
  | s :: rest, e =>
    match s.write e with
    | .ok =>
      match writeEntryToSinks rest e with
      | .ok (ls, ws) => .ok (ls, s :: ws)
      | .error _ => .error ()
    | .throwStd m =>
      match writeEntryToSinks rest e with
      | .ok (ls, ws) => .ok (("Logger sink error: " ++ m) :: ls, s :: ws)
      | .error _ => .error ()
    | .throwOther => .error ()

/-- The per-batch flush loop: each sink's `flush` is called under the same
`catch (const std::exception&)` discipline, with its own diagnostic
text. -/
def flushAllSinks : List SinkModel → Except Unit (List String × List SinkModel)
  | [] => .ok ([], [])
  | s :: rest =>
    match s.flush with
    | .ok =>
      match flushAllSinks rest with
      | .ok (ls, ws) => .ok (ls, s :: ws)
      | .error _ => .error ()
    | .throwStd m =>
      match flushAllSinks rest with
      | .ok (ls, ws) => .ok (("Logger sink flush error: " ++ m) :: ls, s :: ws)
      | .error _ => .error ()
    | .throwOther => .error ()

/-- The write phase of one worker iteration: every record of the batch is
dispatched to every sink; the per-record results are collected.  An
uncaught throw aborts the remaining records (the worker thread dies). -/
def dispatchWrites (sinks : List SinkModel) :
    List LogEntry → Except Unit (List (List String × List SinkModel))
  | [] => .ok []
  | e :: rest =>
    match writeEntryToSinks sinks e with
    | .ok r =>
      match dispatchWrites sinks rest with
      | .ok rs => .ok (r :: rs)
      | .error _ => .error ()
    | .error _ => .error ()

/-- One iteration of the batch-processing section of `Logger::worker_loop`:
the write phase over the whole batch followed by the flush phase over all
sinks. -/
def worker_dispatch (sinks : List SinkModel) (batch : List LogEntry) :
    Except Unit
      (List (List String × List SinkModel) × (List String × List SinkModel)) :=
  match dispatchWrites sinks batch with
  | .ok rs =>
    match flushAllSinks sinks with
    | .ok f => .ok (rs, f)
    | .error _ => .error ()
  | .error _ => .error ()

/-- A sink whose `write` throws an object that is not derived from
`std::exception`. -/
def badSink : SinkModel :=
  { write := fun _ => .throwOther, flush := .ok }

/-- A sink whose `write` always throws a `std::exception`. -/
def stdFailSink : SinkModel :=
  { write := fun _ => .throwStd "disk full", flush := .ok }

/-- A sink that never fails. -/
def okSink : SinkModel :=
  { write := fun _ => .ok, flush := .ok }

/-- C2 counterexample: the worker loop catches only
`const std::exception&`; a sink throwing any other object is not caught,
so the dispatch does not complete and the exception escapes the worker
thread (`std::terminate`). -/
theorem sink_error_counterexample :
    worker_dispatch [badSink] [sampleEntry 0] = Except.error () := rfl

theorem writeEntryToSinks_total (e : LogEntry) :
    ∀ sinks : List SinkModel,
      (∀ s ∈ sinks, s.write e ≠ SinkOutcome.throwOther) →
      ∃ ls, writeEntryToSinks sinks e = .ok (ls, sinks) := by
  intro sinks
  induction sinks with
  | nil =>
      intro _
      exact ⟨[], rfl⟩
  | cons s rest ih =>
      intro h
      have hs : s.write e ≠ SinkOutcome.throwOther := h s (by simp)
      have hrest : ∀ s' ∈ rest, s'.write e ≠ SinkOutcome.throwOther := by
        intro s' hs'
        exact h s' (by simp [hs'])
      obtain ⟨ls, hls⟩ := ih hrest
      rcases hw : s.write e with _ | m | _
      · exact ⟨ls, by unfold writeEntryToSinks; rw [hw, hls]⟩
      · exact ⟨("Logger sink error: " ++ m) :: ls, by
          unfold writeEntryToSinks; rw [hw, hls]⟩
      · exact absurd hw hs

theorem flushAllSinks_total :
    ∀ sinks : List SinkModel,
      (∀ s ∈ sinks, s.flush ≠ SinkOutcome.throwOther) →
      ∃ ls, flushAllSinks sinks = .ok (ls, sinks) := by
  intro sinks
  induction sinks with
  | nil =>
      intro _
      exact ⟨[], rfl⟩
  | cons s rest ih =>
      intro h
      have hs : s.flush ≠ SinkOutcome.throwOther := h s (by simp)
      have hrest : ∀ s' ∈ rest, s'.flush ≠ SinkOutcome.throwOther := by
        intro s' hs'
        exact h s' (by simp [hs'])
      obtain ⟨ls, hls⟩ := ih hrest
      rcases hw : s.flush with _ | m | _
      · exact ⟨ls, by unfold flushAllSinks; rw [hw, hls]⟩
      · exact ⟨("Logger sink flush error: " ++ m) :: ls, by
          unfold flushAllSinks; rw [hw, hls]⟩
      · exact absurd hw hs

/-- C2 (amended): for every record of the batch and every registered sink,
a `std::exception` raised by the sink's `write` or `flush` is caught,
reported on `std::cerr`, and prevents neither the dispatch of the same
record to the remaining sinks nor the dispatch of the remaining records,
and the worker thread survives; this isolation covers only thrown objects
derived from `std::exception` — any other thrown object escapes the
worker loop (see the counterexample). -/
theorem sink_error_isolation :
    ∀ (sinks : List SinkModel) (batch : List LogEntry),
      (∀ s ∈ sinks, ∀ e ∈ batch, s.write e ≠ SinkOutcome.throwOther) →
      (∀ s ∈ sinks, s.flush ≠ SinkOutcome.throwOther) →
      ∃ rs fl, worker_dispatch sinks batch = .ok (rs, fl) ∧
        rs.length = batch.length ∧
        (∀ r ∈ rs, r.2 = sinks) ∧
        fl.2 = sinks := by
  intro sinks batch hw hf
  have hwrites : ∃ rs, dispatchWrites sinks batch = .ok rs ∧
      rs.length = batch.length ∧ (∀ r ∈ rs, r.2 = sinks) := by
    induction batch with
    | nil => exact ⟨[], rfl, rfl, by simp⟩
    | cons e rest ih =>
        have he : ∀ s ∈ sinks, s.write e ≠ SinkOutcome.throwOther := by
          intro s hs
          exact hw s hs e (by simp)
        have hrest : ∀ s ∈ sinks, ∀ e' ∈ rest, s.write e' ≠ SinkOutcome.throwOther := by
          intro s hs e' he'
          exact hw s hs e' (by simp [he'])
        obtain ⟨ls, hls⟩ := writeEntryToSinks_total e sinks he
        obtain ⟨rs, hrs, hlen, hall⟩ := ih hrest
        refine ⟨(ls, sinks) :: rs, ?_, by simp [hlen], ?_⟩
        · unfold dispatchWrites
          rw [hls, hrs]
        · intro r hr
          rcases List.mem_cons.mp hr with h | h
          · rw [h]
          · exact hall r h
  obtain ⟨rs, hrs, hlen, hall⟩ := hwrites
  obtain ⟨fls, hfls⟩ := flushAllSinks_total sinks hf
  refine ⟨rs, (fls, sinks), ?_, hlen, hall, rfl⟩
  unfold worker_dispatch
  rw [hrs, hfls]

/-- Witness for C2 at a concrete input: a failing-with-`std::exception`
sink and a healthy sink, two records — the dispatch completes, both
records reach both sinks, and all sinks are flushed. -/
theorem sink_error_isolation_witness :
    ∃ rs fl,
      worker_dispatch [stdFailSink, okSink] [sampleEntry 0, sampleEntry 1]
        = .ok (rs, fl) ∧
      rs.length = 2 ∧
      (∀ r ∈ rs, r.2 = [stdFailSink, okSink]) ∧
      fl.2 = [stdFailSink, okSink] :=
  sink_error_isolation [stdFailSink, okSink] [sampleEntry 0, sampleEntry 1]
    (by
      intro s hs e he
      rcases List.mem_cons.mp hs with h | h
      · rw [h]; simp [stdFailSink]
      · have : s = okSink := by simpa using h
        rw [this]; simp [okSink])
    (by
      intro s hs
      rcases List.mem_cons.mp hs with h | h
      · rw [h]; simp [stdFailSink]
      · have : s = okSink := by simpa using h
        rw [this]; simp [okSink])

/-! ## File-system model for rotation (`FileSink`) -/

/-- The directory touched by the rotating file sink: an association list
from file names to file contents (first binding wins). -/
abbrev FS := List (String × String)

/-- The content of file `n`, when it exists. -/
def FS.lookup (fs : FS) (n : String) : Option String :=
  (List.find? (fun p => p.1 == n) fs).map (·.2)

/-- `std::filesystem::exists`. -/
def FS.existsFile (fs : FS) (n : String) : Bool :=
  (FS.lookup fs n).isSome

/-- `std::filesystem::remove` (no-op when the file is missing). -/
def FS.erase (fs : FS) (n : String) : FS :=
  List.filter (fun p => !(p.1 == n)) fs

/-- `std::filesystem::rename`: move the content of `src` to `dst`,
overwriting `dst`.  The sink only ever calls it after checking that `src`
exists, so the missing-`src` case (which would throw) is modelled as a
no-op. -/
def FS.rename (fs : FS) (src dst : String) : FS :=
  match FS.lookup fs src with
  | none => fs
  | some c => FS.erase (FS.erase fs src) dst ++ [(dst, c)]

/-- Appending to the open live file (`file_ << log_line`); the file was
created when the stream was opened, so a missing file is created. -/
def FS.appendTo (fs : FS) (n s : String) : FS :=
  match FS.lookup fs n with
  | none => fs ++ [(n, s)]
  | some c => FS.erase fs n ++ [(n, c ++ s)]

/-- `file_.open(filename_, std::ios::out)`: create or truncate. -/
def FS.create (fs : FS) (n : String) : FS :=
  FS.erase fs n ++ [(n, "")]

theorem FS.lookup_single_self (n c : String) : FS.lookup [(n, c)] n = some c := by
  unfold FS.lookup
  rw [List.find?_cons_of_pos _ (by simp)]
  rfl

theorem FS.lookup_single_ne (n c m : String) (h : m ≠ n) :
    FS.lookup [(n, c)] m = none := by
  unfold FS.lookup
  rw [List.find?_cons_of_neg _ (by simp; exact Ne.symm h)]
  rfl

theorem FS.lookup_erase_self (fs : FS) (n : String) :
    FS.lookup (FS.erase fs n) n = none := by
  induction fs with
  | nil => rfl
  | cons p rest ih =>
      by_cases h : p.1 = n
      · have he : FS.erase (p :: rest) n = FS.erase rest n := by
          simp [FS.erase, List.filter_cons, h]
        rw [he, ih]
      · have he : FS.erase (p :: rest) n = p :: FS.erase rest n := by
          simp [FS.erase, List.filter_cons, h]
        rw [he]
        unfold FS.lookup
        rw [List.find?_cons_of_neg _ (by simp [h])]
        exact ih

theorem FS.lookup_erase_ne (fs : FS) (n m : String) (h : m ≠ n) :
    FS.lookup (FS.erase fs n) m = FS.lookup fs m := by
  induction fs with
  | nil => rfl
  | cons p rest ih =>
      by_cases hp : p.1 = n
      · have he : FS.erase (p :: rest) n = FS.erase rest n := by
          simp [FS.erase, List.filter_cons, hp]
        rw [he, ih]
        unfold FS.lookup
        rw [List.find?_cons_of_neg _ (by simp [hp]; exact Ne.symm h)]
      · have he : FS.erase (p :: rest) n = p :: FS.erase rest n := by
          simp [FS.erase, List.filter_cons, hp]
        rw [he]
        by_cases hm : p.1 = m
        · unfold FS.lookup
          rw [List.find?_cons_of_pos _ (by simp [hm]),
            List.find?_cons_of_pos _ (by simp [hm])]
        · unfold FS.lookup
          rw [List.find?_cons_of_neg _ (by simp [hm]),
            List.find?_cons_of_neg _ (by simp [hm])]
          exact ih

theorem FS.lookup_append_of_none (l1 l2 : FS) (m : String)
    (h : FS.lookup l1 m = none) : FS.lookup (l1 ++ l2) m = FS.lookup l2 m := by
  induction l1 with
  | nil => rfl
  | cons p rest ih =>
      by_cases hp : p.1 = m
      · unfold FS.lookup at h
        rw [List.find?_cons_of_pos _ (by simp [hp])] at h
        exact absurd h (by simp)
      · unfold FS.lookup at h
        rw [List.find?_cons_of_neg _ (by simp [hp])] at h
        show FS.lookup (p :: (rest ++ l2)) m = FS.lookup l2 m
        unfold FS.lookup
        rw [List.find?_cons_of_neg _ (by simp [hp])]
        exact ih h

theorem FS.lookup_append_of_some (l1 l2 : FS) (m c : String)
    (h : FS.lookup l1 m = some c) : FS.lookup (l1 ++ l2) m = some c := by
  induction l1 with
  | nil => exact absurd h (by simp [FS.lookup])
  | cons p rest ih =>
      by_cases hp : p.1 = m
      · unfold FS.lookup at h
        rw [List.find?_cons_of_pos _ (by simp [hp])] at h
        show FS.lookup (p :: (rest ++ l2)) m = some c
        unfold FS.lookup
        rw [List.find?_cons_of_pos _ (by simp [hp])]
        exact h
      · unfold FS.lookup at h
        rw [List.find?_cons_of_neg _ (by simp [hp])] at h
        show FS.lookup (p :: (rest ++ l2)) m = some c
        unfold FS.lookup
        rw [List.find?_cons_of_neg _ (by simp [hp])]
        exact ih h

theorem FS.lookup_rename_dst (fs : FS) (src dst c : String)
    (h : FS.lookup fs src = some c) :
    FS.lookup (FS.rename fs src dst) dst = some c := by
  unfold FS.rename
  rw [h]
  rw [FS.lookup_append_of_none _ _ _ (FS.lookup_erase_self _ _)]
  exact FS.lookup_single_self dst c

theorem FS.lookup_rename_other (fs : FS) (src dst x : String)
    (hx1 : x ≠ src) (hx2 : x ≠ dst) :
    FS.lookup (FS.rename fs src dst) x = FS.lookup fs x := by
  unfold FS.rename
  rcases h : FS.lookup fs src with _ | c
  · rfl
  · have h1 : FS.lookup (FS.erase (FS.erase fs src) dst) x = FS.lookup fs x := by
      rw [FS.lookup_erase_ne _ _ _ hx2, FS.lookup_erase_ne _ _ _ hx1]
    rcases h2 : FS.lookup (FS.erase (FS.erase fs src) dst) x with _ | c'
    · rw [FS.lookup_append_of_none _ _ _ h2, FS.lookup_single_ne _ _ _ hx2,
        ← h1, h2]
    · rw [FS.lookup_append_of_some _ _ _ _ h2, ← h1, h2]

theorem FS.lookup_appendTo_self (fs : FS) (n s : String) :
    ∃ c, FS.lookup (FS.appendTo fs n s) n = some c := by
  unfold FS.appendTo
  rcases h : FS.lookup fs n with _ | c
  · refine ⟨s, ?_⟩
    rw [FS.lookup_append_of_none _ _ _ h]
    exact FS.lookup_single_self n s
  · refine ⟨c ++ s, ?_⟩
    rw [FS.lookup_append_of_none _ _ _ (FS.lookup_erase_self _ _)]
    exact FS.lookup_single_self n (c ++ s)

/-! ## The rotating file sink (`FileSink`) -/

/-- The generation file name `filename_ + "." + std::to_string(i)`. -/
def genName (base : String) (i : Nat) : String :=
  base ++ "." ++ toString i

theorem genName_ne_base (base : String) (i : Nat) : genName base i ≠ base := by
  intro h
  have hlen := congrArg String.length h
  rw [genName, String.length_append, String.length_append] at hlen
  have hdot : (".").length = 1 := rfl
  omega

/-- The names the rotating sink may legitimately leave on disk: the live
file and the generations `1 … max_files`. -/
def goodName (base : String) (max_files : Nat) (n : String) : Prop :=
  n = base ∨ ∃ j, 1 ≤ j ∧ j ≤ max_files ∧ n = genName base j

/-- Every file in `fs` is the live file or a retained generation: this is
the statement that the on-disk generations number at most `max_files`. -/
def FS.bounded (base : String) (max_files : Nat) (fs : FS) : Prop :=
  ∀ p ∈ fs, goodName base max_files p.1

theorem FS.bounded_erase (base : String) (mf : Nat) (fs : FS) (n : String)
    (h : FS.bounded base mf fs) : FS.bounded base mf (FS.erase fs n) := by
  intro p hp
  exact h p (List.mem_of_mem_filter hp)

theorem FS.bounded_append_single (base : String) (mf : Nat) (fs : FS)
    (n c : String) (h : FS.bounded base mf fs) (hn : goodName base mf n) :
    FS.bounded base mf (fs ++ [(n, c)]) := by
  intro p hp
  rcases List.mem_append.mp hp with h1 | h1
  · exact h p h1
  · have hpn : p = (n, c) := by simpa using h1
    rw [hpn]
    exact hn

theorem FS.bounded_rename (base : String) (mf : Nat) (fs : FS)
    (src dst : String) (h : FS.bounded base mf fs) (hd : goodName base mf dst) :
    FS.bounded base mf (FS.rename fs src dst) := by
  unfold FS.rename
  rcases FS.lookup fs src with _ | c
  · exact h
  · exact FS.bounded_append_single base mf _ dst c
      (FS.bounded_erase base mf _ dst (FS.bounded_erase base mf fs src h)) hd

theorem FS.bounded_appendTo (base : String) (mf : Nat) (fs : FS)
    (n s : String) (h : FS.bounded base mf fs) (hn : goodName base mf n) :
    FS.bounded base mf (FS.appendTo fs n s) := by
  unfold FS.appendTo
  rcases FS.lookup fs n with _ | c
  · exact FS.bounded_append_single base mf fs n s h hn
  · exact FS.bounded_append_single base mf _ n (c ++ s)
      (FS.bounded_erase base mf fs n h) hn

theorem FS.bounded_create (base : String) (mf : Nat) (fs : FS) (n : String)
    (h : FS.bounded base mf fs) (hn : goodName base mf n) :
    FS.bounded base mf (FS.create fs n) :=
  FS.bounded_append_single base mf _ n ""
    (FS.bounded_erase base mf fs n h) hn

/-- The state of a `FileSink`: the directory, whether the stream is open,
and the tracked size `current_size_`. -/
structure FileSinkState where
  fs : FS
  is_open : Bool
  current_size : Nat
deriving DecidableEq, Repr

/-- One iteration of the renaming loop of `FileSink::rotate_file` at
generation index `i`: if `name.i` exists, first delete `name.(i+1)` when
`i` is the oldest retained slot (`i == max_files - 1`), then rename
`name.i` to `name.(i+1)`. -/
def rotateStep (base : String) (max_files i : Nat) (fs : FS) : FS :=
  if FS.existsFile fs (genName base i) then
    FS.rename
      (if i = max_files - 1 then FS.erase fs (genName base (i + 1)) else fs)
      (genName base i) (genName base (i + 1))
  else fs

/-- The loop `for (int i = max_files_ - 1; i > 0; --i)` of
`FileSink::rotate_file`, counting down from its first index. -/
def rotateLoop (base : String) (max_files : Nat) : Nat → FS → FS
  | 0, fs => fs
  | i + 1, fs => rotateLoop base max_files i (rotateStep base max_files (i + 1) fs)

/-- `FileSink::rotate_file`: when the stream is open — close it, shift the
generations, rename the live file to `name.1`, reopen a fresh empty live
file, and reset the tracked size. -/
def rotate_file (base : String) (max_files : Nat) (st : FileSinkState) :
    FileSinkState :=
  if st.is_open then
    let fs1 := rotateLoop base max_files (max_files - 1) st.fs
    let fs2 := if FS.existsFile fs1 base then FS.rename fs1 base (genName base 1)
               else fs1
    { fs := FS.create fs2 base, is_open := true, current_size := 0 }
  else st

/-- `FileSink::check_and_rotate`. -/
def check_and_rotate (base : String) (max_file_size max_files : Nat)
    (st : FileSinkState) : FileSinkState :=
  if max_file_size ≤ st.current_size then rotate_file base max_files st else st

/-- `FileSink::write`: when the stream is open, append the formatted
`log_line` (the `fileLine` shape), grow the tracked size by the line's
length, then run `check_and_rotate` once. -/
def FileSink.write (base : String) (max_file_size max_files : Nat)
    (st : FileSinkState) (ts : String) (level : LogLevel)
    (tidHash msg : String) : FileSinkState :=
  if st.is_open then
    check_and_rotate base max_file_size max_files
      { st with fs := FS.appendTo st.fs base (fileLine ts level tidHash msg),
                current_size := st.current_size
                  + (fileLine ts level tidHash msg).length }
  else st

theorem lookup_rotateStep_base (base : String) (mf i : Nat) (fs : FS) :
    FS.lookup (rotateStep base mf i fs) base = FS.lookup fs base := by
  unfold rotateStep
  split
  · split
    · rw [FS.lookup_rename_other _ _ _ _ (Ne.symm (genName_ne_base base i))
        (Ne.symm (genName_ne_base base (i + 1))),
        FS.lookup_erase_ne _ _ _ (Ne.symm (genName_ne_base base (i + 1)))]
    · rw [FS.lookup_rename_other _ _ _ _ (Ne.symm (genName_ne_base base i))
        (Ne.symm (genName_ne_base base (i + 1)))]
  · rfl

theorem lookup_rotateLoop_base (base : String) (mf : Nat) :
    ∀ (k : Nat) (fs : FS),
      FS.lookup (rotateLoop base mf k fs) base = FS.lookup fs base := by
  intro k
  induction k with
  | zero => intro fs; rfl
  | succ i ih =>
      intro fs
      show FS.lookup (rotateLoop base mf i (rotateStep base mf (i + 1) fs)) base
        = FS.lookup fs base
      rw [ih, lookup_rotateStep_base]

theorem bounded_rotateStep (base : String) (mf i : Nat)
    (hi1 : 1 ≤ i) (hi2 : i + 1 ≤ mf) (fs : FS)
    (h : FS.bounded base mf fs) : FS.bounded base mf (rotateStep base mf i fs) := by
  unfold rotateStep
  have hgood : goodName base mf (genName base (i + 1)) :=
    Or.inr ⟨i + 1, by omega, hi2, rfl⟩
  split
  · split
    · exact FS.bounded_rename base mf _ _ _
        (FS.bounded_erase base mf fs _ h) hgood
    · exact FS.bounded_rename base mf _ _ _ h hgood
  · exact h

theorem bounded_rotateLoop (base : String) (mf : Nat) (hmf : 1 ≤ mf) :
    ∀ (k : Nat) (fs : FS), k ≤ mf - 1 →
      FS.bounded base mf fs → FS.bounded base mf (rotateLoop base mf k fs) := by
  intro k
  induction k with
  | zero => intro fs _ h; exact h
  | succ i ih =>
      intro fs hk h
      show FS.bounded base mf (rotateLoop base mf i (rotateStep base mf (i + 1) fs))
      exact ih _ (by omega)
        (bounded_rotateStep base mf (i + 1) (by omega) (by omega) fs h)

/-- C3: a `FileSink::write` whose resulting tracked size reaches the max
size threshold performs exactly one rotation, immediately after the
append; the rotation resets the tracked size to 0, reopens a fresh empty
live file, moves the previously live content to generation `.1`, and —
when the directory held only the live file and generations
`1 … max_files` before — every file afterwards is again the live file or
one of the generations `1 … max_files` (hence at most `max_files`
generations on disk). -/
theorem rotation_correct (base : String) (max_file_size max_files : Nat)
    (st : FileSinkState) (ts : String) (level : LogLevel) (tidHash msg : String)
    (hmf : 1 ≤ max_files) (hopen : st.is_open = true)
    (hbound : FS.bounded base max_files st.fs)
    (hsz : max_file_size ≤ st.current_size + (fileLine ts level tidHash msg).length) :
    FileSink.write base max_file_size max_files st ts level tidHash msg
        = rotate_file base max_files
            { st with fs := FS.appendTo st.fs base (fileLine ts level tidHash msg),
                      current_size := st.current_size
                        + (fileLine ts level tidHash msg).length } ∧
    (FileSink.write base max_file_size max_files st ts level tidHash msg).current_size
        = 0 ∧
    FS.lookup
        (FileSink.write base max_file_size max_files st ts level tidHash msg).fs
        base = some "" ∧
    FS.lookup
        (FileSink.write base max_file_size max_files st ts level tidHash msg).fs
        (genName base 1)
      = FS.lookup (FS.appendTo st.fs base (fileLine ts level tidHash msg)) base ∧
    FS.bounded base max_files
      (FileSink.write base max_file_size max_files st ts level tidHash msg).fs := by
  have hw : FileSink.write base max_file_size max_files st ts level tidHash msg
      = rotate_file base max_files
          { st with fs := FS.appendTo st.fs base (fileLine ts level tidHash msg),
                    current_size := st.current_size
                      + (fileLine ts level tidHash msg).length } := by
    unfold FileSink.write
    rw [hopen]
    show check_and_rotate base max_file_size max_files _ = _
    unfold check_and_rotate
    rw [if_pos hsz]
  set line := fileLine ts level tidHash msg with hline
  set fsA := FS.appendTo st.fs base line with hfsA
  set st1 : FileSinkState :=
    { st with fs := fsA, current_size := st.current_size + line.length } with hst1
  have hopen1 : st1.is_open = true := hopen
  have hrot : rotate_file base max_files st1
      = { fs := FS.create
                  (if FS.existsFile (rotateLoop base max_files (max_files - 1) fsA) base
                   then FS.rename (rotateLoop base max_files (max_files - 1) fsA)
                          base (genName base 1)
                   else rotateLoop base max_files (max_files - 1) fsA) base,
          is_open := true, current_size := 0 } := by
    unfold rotate_file
    rw [hopen1]
    rfl
  obtain ⟨c, hc⟩ := FS.lookup_appendTo_self st.fs base line
  have hcA : FS.lookup fsA base = some c := hc
  have hloop : FS.lookup (rotateLoop base max_files (max_files - 1) fsA) base
      = some c := by
    rw [lookup_rotateLoop_base, hcA]
  have hex : FS.existsFile (rotateLoop base max_files (max_files - 1) fsA) base
      = true := by
    unfold FS.existsFile
    rw [hloop]
    rfl
  set fs1 := rotateLoop base max_files (max_files - 1) fsA with hfs1
  set fs2 := FS.rename fs1 base (genName base 1) with hfs2
  have hrot2 : rotate_file base max_files st1
      = { fs := FS.create fs2 base, is_open := true, current_size := 0 } := by
    rw [hrot, if_pos hex]
  have hgen1 : FS.lookup fs2 (genName base 1) = some c :=
    FS.lookup_rename_dst fs1 base (genName base 1) c hloop
  have hcreate_gen1 : FS.lookup (FS.create fs2 base) (genName base 1) = some c := by
    unfold FS.create
    have h1 : FS.lookup (FS.erase fs2 base) (genName base 1) = some c := by
      rw [FS.lookup_erase_ne _ _ _ (genName_ne_base base 1)]
      exact hgen1
    exact FS.lookup_append_of_some _ _ _ _ h1
  have hcreate_base : FS.lookup (FS.create fs2 base) base = some "" := by
    unfold FS.create
    rw [FS.lookup_append_of_none _ _ _ (FS.lookup_erase_self _ _)]
    exact FS.lookup_single_self base ""
  have hboundA : FS.bounded base max_files fsA :=
    FS.bounded_appendTo base max_files st.fs base line hbound (Or.inl rfl)
  have hbound1 : FS.bounded base max_files fs1 :=
    bounded_rotateLoop base max_files hmf (max_files - 1) fsA (le_refl _) hboundA
  have hbound2 : FS.bounded base max_files fs2 :=
    FS.bounded_rename base max_files fs1 base (genName base 1) hbound1
      (Or.inr ⟨1, le_refl 1, hmf, rfl⟩)
  have hboundC : FS.bounded base max_files (FS.create fs2 base) :=
    FS.bounded_create base max_files fs2 base hbound2 (Or.inl rfl)
  refine ⟨hw, ?_, ?_, ?_, ?_⟩
  · rw [hw, hrot2]
  · rw [hw, hrot2]
    exact hcreate_base
  · rw [hw, hrot2]
    show FS.lookup (FS.create fs2 base) (genName base 1) = FS.lookup fsA base
    rw [hcreate_gen1, hcA]
  · rw [hw, hrot2]
    exact hboundC

/-- Witness for C3 at a concrete input: live file `app.log` holding one
byte with threshold 1 and two retained generations — the write triggers
one rotation, the size resets, the live file is fresh, and the old live
content sits in `app.log.1`. -/
theorem rotation_correct_witness :
    (FileSink.write "app.log" 1 2
        { fs := [("app.log", "x")], is_open := true, current_size := 1 }
        "T" .INFO "7" "m").current_size = 0 ∧
    FS.lookup (FileSink.write "app.log" 1 2
        { fs := [("app.log", "x")], is_open := true, current_size := 1 }
        "T" .INFO "7" "m").fs "app.log" = some "" :=
  have h := rotation_correct "app.log" 1 2
    { fs := [("app.log", "x")], is_open := true, current_size := 1 }
    "T" .INFO "7" "m" (by decide) rfl
    (by
      intro p hp
      have hp' : p = ("app.log", "x") := by simpa using hp
      rw [hp']
      exact Or.inl rfl)
    (Nat.le_add_right 1 _)
  ⟨h.2.1, h.2.2.1⟩

end CppLog
